import Mathlib

/-!
Verification of the XHS client core (`media_platform/xhs/client.py`):
request-outcome classification, comment pagination, the upload/publish
pipeline and the JSON wire format used by the publish payload.

The Python dict/JSON values handled by the client are modelled by the
`Json` inductive below; `encodeJson` models the serialisation performed by
`json.dumps(..., separators=(",", ":"), ensure_ascii=False)` and `decode`
is a reference JSON reader used to state round-trip and classification
properties.
-/

set_option maxHeartbeats 1000000

namespace XHS

/-- JSON values (numbers restricted to integers, which covers every numeric
field the client produces). -/
inductive Json where
  | null : Json
  | bool (b : Bool) : Json
  | num (n : Int) : Json
  | str (s : String) : Json
  | arr (xs : List Json) : Json
  | obj (kvs : List (String × Json)) : Json

/-- First-match association lookup, modelling Python `dict` access on the
(unique-key) JSON objects the platform returns. -/
def lookupPairs : List (String × Json) → String → Option Json
  | [], _ => none
  | (k, v) :: rest, key => if k = key then some v else lookupPairs rest key

/-- Python `data[key]` / `data.get(key)` on a JSON value: only objects have keys. -/
def jsonLookup : Json → String → Option Json
  | .obj kvs, key => lookupPairs kvs key
  | _, _ => none

/-- Python `data.get(key, d)`. -/
def jsonLookupD (j : Json) (key : String) (d : Json) : Json :=
  (jsonLookup j key).getD d

/-- Python truthiness of a JSON value (`if data["success"]:` etc.). -/
def jsonTruthy : Json → Bool
  | .null => false
  | .bool b => b
  | .num n => n != 0
  | .str s => s != ""
  | .arr xs => !xs.isEmpty
  | .obj kvs => !kvs.isEmpty

/-! ## Encoder: `json.dumps(value, separators=(",", ":"), ensure_ascii=False)` -/

/-- Decimal digit character (the digits produced by `Nat.digits 10` are
always below 10; the catch-all keeps the function total). -/
def digitChar : Nat → Char
  | 0 => '0' | 1 => '1' | 2 => '2' | 3 => '3' | 4 => '4'
  | 5 => '5' | 6 => '6' | 7 => '7' | 8 => '8' | 9 => '9'
  | _ => '0'

/-- Lowercase hexadecimal digit, as emitted by Python's `\u%04x` escapes. -/
def hexDigitChar : Nat → Char
  | 0 => '0' | 1 => '1' | 2 => '2' | 3 => '3' | 4 => '4'
  | 5 => '5' | 6 => '6' | 7 => '7' | 8 => '8' | 9 => '9'
  | 10 => 'a' | 11 => 'b' | 12 => 'c' | 13 => 'd' | 14 => 'e' | 15 => 'f'
  | _ => '0'

/-- Decimal representation of a natural number. -/
def encodeNat (n : Nat) : List Char :=
  if n = 0 then ['0'] else ((Nat.digits 10 n).map digitChar).reverse

/-- Decimal representation of an integer. -/
def encodeInt (n : Int) : List Char :=
  if n < 0 then '-' :: encodeNat n.natAbs else encodeNat n.toNat

/-- Per-character JSON string escaping as done by Python's `json` encoder
with `ensure_ascii=False`: `"` and `\` get a backslash, the five named
control escapes are used, and remaining control characters become
lowercase `\u00XX`; everything else is emitted verbatim. -/
def escapeChar (c : Char) : List Char :=
  if c = '"' then ['\\', '"']
  else if c = '\\' then ['\\', '\\']
  else if c = '\n' then ['\\', 'n']
  else if c = '\r' then ['\\', 'r']
  else if c = '\t' then ['\\', 't']
  else if c = '\x08' then ['\\', 'b']
  else if c = '\x0c' then ['\\', 'f']
  else if c.toNat < 32 then
    ['\\', 'u', '0', '0', hexDigitChar (c.toNat / 16), hexDigitChar (c.toNat % 16)]
  else [c]

/-- A JSON string literal, quotes included. -/
def encodeStringChars (s : String) : List Char :=
  '"' :: (s.data.flatMap escapeChar) ++ ['"']

mutual

/-- Compact JSON serialisation (separators `","` and `":"`, no whitespace),
matching `json.dumps(..., separators=(",", ":"), ensure_ascii=False)`. -/
def encodeJson : Json → List Char
  | .null => 'n' :: ['u', 'l', 'l']
  | .bool true => 't' :: ['r', 'u', 'e']
  | .bool false => 'f' :: ['a', 'l', 's', 'e']
  | .num n => encodeInt n
  | .str s => encodeStringChars s
  | .arr xs => '[' :: encodeElems xs ++ [']']
  | .obj kvs => '\x7b' :: encodeMembers kvs ++ ['\x7d']

/-- Comma-separated array elements. -/
def encodeElems : List Json → List Char
  | [] => []
  | [x] => encodeJson x
  | x :: y :: xs => encodeJson x ++ ',' :: encodeElems (y :: xs)

/-- Comma-separated `"key":value` object members. -/
def encodeMembers : List (String × Json) → List Char
  | [] => []
  | [(k, v)] => encodeStringChars k ++ ':' :: encodeJson v
  | (k, v) :: m :: ms =>
    encodeStringChars k ++ ':' :: encodeJson v ++ ',' :: encodeMembers (m :: ms)

end

/-- The serialised JSON document as a `String`. -/
def encStr (j : Json) : String :=
  String.mk (encodeJson j)

/-! ## Reference JSON reader

`decode` is the reference reader used to state "the body is valid JSON" and
the round-trip property of the doubly-encoded publish payload.  It accepts
the compact documents the encoder produces (no insignificant whitespace,
integer numerics). -/

/-- Value of one hexadecimal digit. -/
def hexVal (c : Char) : Option Nat :=
  if '0' ≤ c ∧ c ≤ '9' then some (c.toNat - 48)
  else if 'a' ≤ c ∧ c ≤ 'f' then some (c.toNat - 87)
  else if 'A' ≤ c ∧ c ≤ 'F' then some (c.toNat - 55)
  else none

/-- Single-character escapes accepted after a backslash. -/
def unescapeChar (e : Char) : Option Char :=
  if e = '"' then some '"'
  else if e = '\\' then some '\\'
  else if e = '/' then some '/'
  else if e = 'b' then some '\x08'
  else if e = 'f' then some '\x0c'
  else if e = 'n' then some '\n'
  else if e = 'r' then some '\r'
  else if e = 't' then some '\t'
  else none

/-- Reads a string body up to the closing quote, decoding escapes. -/
def parseStringBody : List Char → Option (List Char × List Char)
  | [] => none
  | c :: rest =>
    if c = '"' then some ([], rest)
    else if c = '\\' then
      match rest with
      | 'u' :: a :: b :: c2 :: d :: rest2 =>
        match hexVal a, hexVal b, hexVal c2, hexVal d with
        | some va, some vb, some vc, some vd =>
          (parseStringBody rest2).map
            (fun p => (Char.ofNat (va * 4096 + vb * 256 + vc * 16 + vd) :: p.1, p.2))
        | _, _, _, _ => none
      | e :: rest2 =>
        match unescapeChar e with
        | some u => (parseStringBody rest2).map (fun p => (u :: p.1, p.2))
        | none => none
      | [] => none
    else (parseStringBody rest).map (fun p => (c :: p.1, p.2))

/-- Consumes a maximal run of decimal digits, folding them onto `acc`. -/
def parseDigitsAcc : List Char → Nat → Nat × List Char
  | [], acc => (acc, [])
  | c :: rest, acc =>
    if c.isDigit then parseDigitsAcc rest (acc * 10 + (c.toNat - 48))
    else (acc, c :: rest)

/-- Reads an (optionally negated) decimal integer. -/
def parseNumber : List Char → Option (Int × List Char)
  | [] => none
  | c :: rest =>
    if c = '-' then
      match rest with
      | [] => none
      | c2 :: rest2 =>
        if c2.isDigit then
          let p := parseDigitsAcc rest2 (c2.toNat - 48)
          some (-(p.1 : Int), p.2)
        else none
    else if c.isDigit then
      let p := parseDigitsAcc rest (c.toNat - 48)
      some ((p.1 : Int), p.2)
    else none

/-- Whether the input begins with a decimal digit or a minus sign. -/
def startsNumber : List Char → Bool
  | [] => false
  | c :: _ => c.isDigit || c = '-'

/-- Whether the input begins with a decimal digit. -/
def startsDigit : List Char → Bool
  | [] => false
  | c :: _ => c.isDigit

mutual

/-- Reads one JSON value; `fuel` bounds the nesting the reader will enter. -/
def parseVal : Nat → List Char → Option (Json × List Char)
  | 0, _ => none
  | fuel + 1, cs =>
    if startsNumber cs then (parseNumber cs).map (fun p => (Json.num p.1, p.2))
    else
      match cs with
      | 'n' :: 'u' :: 'l' :: 'l' :: rest => some (.null, rest)
      | 't' :: 'r' :: 'u' :: 'e' :: rest => some (.bool true, rest)
      | 'f' :: 'a' :: 'l' :: 's' :: 'e' :: rest => some (.bool false, rest)
      | '"' :: rest =>
        (parseStringBody rest).map (fun p => (.str (String.mk p.1), p.2))
      | '[' :: ']' :: rest => some (.arr [], rest)
      | '[' :: rest => (parseElems fuel rest).map (fun p => (.arr p.1, p.2))
      | '\x7b' :: '\x7d' :: rest => some (.obj [], rest)
      | '\x7b' :: rest => (parseMembers fuel rest).map (fun p => (.obj p.1, p.2))
      | _ => none

/-- Reads the elements of a non-empty array, up to the closing bracket. -/
def parseElems : Nat → List Char → Option (List Json × List Char)
  | 0, _ => none
  | fuel + 1, cs =>
    match parseVal fuel cs with
    | none => none
    | some (v, r) =>
      match r with
      | ',' :: r2 => (parseElems fuel r2).map (fun p => (v :: p.1, p.2))
      | ']' :: r2 => some ([v], r2)
      | _ => none

/-- Reads the members of a non-empty object, up to the closing brace. -/
def parseMembers : Nat → List Char → Option (List (String × Json) × List Char)
  | 0, _ => none
  | fuel + 1, cs =>
    match cs with
    | '"' :: rest =>
      match parseStringBody rest with
      | none => none
      | some (k, r1) =>
        match r1 with
        | ':' :: r2 =>
          match parseVal fuel r2 with
          | none => none
          | some (v, r3) =>
            match r3 with
            | ',' :: r4 =>
              (parseMembers fuel r4).map (fun p => ((String.mk k, v) :: p.1, p.2))
            | '\x7d' :: r4 => some ([(String.mk k, v)], r4)
            | _ => none
        | _ => none
    | _ => none

end

/-- Decodes a whole document: one value consuming the entire input. -/
def decode (s : String) : Option Json :=
  match parseVal (s.length + 1) s.data with
  | some (j, []) => some j
  | _ => none

/-! ## Round-trip: the reader recovers exactly what the encoder wrote -/

theorem digitChar_isDigit (d : Nat) : (digitChar d).isDigit = true := by
  match d with
  | 0 | 1 | 2 | 3 | 4 | 5 | 6 | 7 | 8 | 9 => rfl
  | n + 10 => rfl

theorem digitChar_toNat (d : Nat) (h : d < 10) : (digitChar d).toNat = 48 + d := by
  interval_cases d <;> decide

theorem isDigit_ne_minus {c : Char} (h : c.isDigit = true) : c ≠ '-' := by
  intro hc; subst hc; simp [Char.isDigit] at h

theorem isDigit_ne_rbracket {c : Char} (h : c.isDigit = true) : c ≠ ']' := by
  intro hc; subst hc; simp [Char.isDigit] at h

theorem parseDigitsAcc_spec (L : List Nat) (hL : ∀ d ∈ L, d < 10) (acc : Nat)
    (rest : List Char) (hrest : startsDigit rest = false) :
    parseDigitsAcc (L.map digitChar ++ rest) acc =
      (L.foldl (fun a d => a * 10 + d) acc, rest) := by
  induction L generalizing acc with
  | nil =>
    simp only [List.map_nil, List.nil_append, List.foldl_nil]
    match rest, hrest with
    | [], _ => rfl
    | c :: rest2, hrest =>
      simp only [startsDigit] at hrest
      simp [parseDigitsAcc, hrest]
  | cons d L ih =>
    have hd : d < 10 := hL d (by simp)
    simp only [List.map_cons, List.cons_append, List.foldl_cons]
    rw [parseDigitsAcc, if_pos (digitChar_isDigit d), digitChar_toNat d hd]
    rw [ih (fun x hx => hL x (by simp [hx])) _]
    congr 2
    omega

theorem foldl_reverse_digits (L : List Nat) :
    L.reverse.foldl (fun a d => a * 10 + d) 0 = Nat.ofDigits 10 L := by
  induction L with
  | nil => simp [Nat.ofDigits]
  | cons d L ih =>
    rw [List.reverse_cons, List.foldl_append, ih, Nat.ofDigits_cons]
    simp only [List.foldl_cons, List.foldl_nil]
    omega

theorem encodeNat_spec (n : Nat) (rest : List Char) (hrest : startsDigit rest = false) :
    ∃ c cs, encodeNat n = c :: cs ∧ c.isDigit = true ∧
      parseDigitsAcc (cs ++ rest) (c.toNat - 48) = (n, rest) := by
  by_cases h0 : n = 0
  · subst h0
    refine ⟨'0', [], rfl, by decide, ?_⟩
    have := parseDigitsAcc_spec [] (by simp) 0 rest hrest
    simpa using this
  · have hnil : Nat.digits 10 n ≠ [] := Nat.digits_ne_nil_iff_ne_zero.mpr h0
    obtain ⟨d, T, hDT⟩ : ∃ d T, (Nat.digits 10 n).reverse = d :: T := by
      match hR : (Nat.digits 10 n).reverse with
      | [] => exact absurd (by simpa using congrArg List.reverse hR) hnil
      | d :: T => exact ⟨d, T, rfl⟩
    have hmem : ∀ x ∈ d :: T, x < 10 := by
      intro x hx
      have : x ∈ Nat.digits 10 n := by
        rw [← List.mem_reverse, hDT]; exact hx
      exact Nat.digits_lt_base (by norm_num) this
    have hd10 : d < 10 := hmem d (by simp)
    refine ⟨digitChar d, T.map digitChar, ?_, digitChar_isDigit d, ?_⟩
    · rw [encodeNat, if_neg h0, ← List.map_reverse, hDT, List.map_cons]
    · rw [digitChar_toNat d hd10, Nat.add_sub_cancel_left]
      rw [parseDigitsAcc_spec T (fun x hx => hmem x (by simp [hx])) d rest hrest]
      have : (d :: T).foldl (fun a d => a * 10 + d) 0 = n := by
        rw [← hDT, foldl_reverse_digits, Nat.ofDigits_digits]
      simp only [List.foldl_cons] at this
      simpa using this

theorem hexVal_hexDigitChar (v : Nat) (h : v < 16) : hexVal (hexDigitChar v) = some v := by
  interval_cases v <;> rfl

theorem psb_quote (t : List Char) :
    parseStringBody ('\\' :: '"' :: t) =
      (parseStringBody t).map (fun p => ('"' :: p.1, p.2)) := rfl

theorem psb_backslash (t : List Char) :
    parseStringBody ('\\' :: '\\' :: t) =
      (parseStringBody t).map (fun p => ('\\' :: p.1, p.2)) := rfl

theorem psb_newline (t : List Char) :
    parseStringBody ('\\' :: 'n' :: t) =
      (parseStringBody t).map (fun p => ('\n' :: p.1, p.2)) := rfl

theorem psb_return (t : List Char) :
    parseStringBody ('\\' :: 'r' :: t) =
      (parseStringBody t).map (fun p => ('\r' :: p.1, p.2)) := rfl

theorem psb_tab (t : List Char) :
    parseStringBody ('\\' :: 't' :: t) =
      (parseStringBody t).map (fun p => ('\t' :: p.1, p.2)) := rfl

theorem psb_backspace (t : List Char) :
    parseStringBody ('\\' :: 'b' :: t) =
      (parseStringBody t).map (fun p => ('\x08' :: p.1, p.2)) := rfl

theorem psb_formfeed (t : List Char) :
    parseStringBody ('\\' :: 'f' :: t) =
      (parseStringBody t).map (fun p => ('\x0c' :: p.1, p.2)) := rfl

theorem psb_hex (x y : Char) (vc vd : Nat) (hx : hexVal x = some vc)
    (hy : hexVal y = some vd) (t : List Char) :
    parseStringBody ('\\' :: 'u' :: '0' :: '0' :: x :: y :: t) =
      (parseStringBody t).map (fun p => (Char.ofNat (vc * 16 + vd) :: p.1, p.2)) := by
  have h0 : hexVal '0' = some 0 := rfl
  simp [parseStringBody, hx, hy, h0]

theorem psb_plain (c : Char) (hq : c ≠ '"') (hb : c ≠ '\\') (t : List Char) :
    parseStringBody (c :: t) =
      (parseStringBody t).map (fun p => (c :: p.1, p.2)) := by
  rw [parseStringBody.eq_def]
  simp only []
  rw [if_neg hq, if_neg hb]

theorem parseStringBody_escaped (cs : List Char) (rest : List Char) :
    parseStringBody (cs.flatMap escapeChar ++ '"' :: rest) = some (cs, rest) := by
  induction cs with
  | nil =>
    simp only [List.flatMap_nil, List.nil_append]
    rw [parseStringBody.eq_def]; simp
  | cons c cs ih =>
    simp only [List.flatMap_cons, List.append_assoc]
    rw [escapeChar]
    by_cases h1 : c = '"'
    · subst h1; rw [if_pos rfl]
      simp only [List.cons_append, List.nil_append, psb_quote, ih]
      rfl
    · rw [if_neg h1]
      by_cases h2 : c = '\\'
      · subst h2; rw [if_pos rfl]
        simp only [List.cons_append, List.nil_append, psb_backslash, ih]
        rfl
      · rw [if_neg h2]
        by_cases h3 : c = '\n'
        · subst h3; rw [if_pos rfl]
          simp only [List.cons_append, List.nil_append, psb_newline, ih]
          rfl
        · rw [if_neg h3]
          by_cases h4 : c = '\r'
          · subst h4; rw [if_pos rfl]
            simp only [List.cons_append, List.nil_append, psb_return, ih]
            rfl
          · rw [if_neg h4]
            by_cases h5 : c = '\t'
            · subst h5; rw [if_pos rfl]
              simp only [List.cons_append, List.nil_append, psb_tab, ih]
              rfl
            · rw [if_neg h5]
              by_cases h6 : c = '\x08'
              · subst h6; rw [if_pos rfl]
                simp only [List.cons_append, List.nil_append, psb_backspace, ih]
                rfl
              · rw [if_neg h6]
                by_cases h7 : c = '\x0c'
                · subst h7; rw [if_pos rfl]
                  simp only [List.cons_append, List.nil_append, psb_formfeed, ih]
                  rfl
                · rw [if_neg h7]
                  by_cases h8 : c.toNat < 32
                  · rw [if_pos h8]
                    simp only [List.cons_append, List.nil_append]
                    rw [psb_hex _ _ _ _ (hexVal_hexDigitChar _ (by omega))
                      (hexVal_hexDigitChar _ (Nat.mod_lt _ (by norm_num))), ih]
                    have hval : c.toNat / 16 * 16 + c.toNat % 16 = c.toNat := by omega
                    rw [hval, Char.ofNat_toNat]
                    rfl
                  · rw [if_neg h8]
                    simp only [List.cons_append, List.nil_append]
                    rw [psb_plain c h1 h2, ih]
                    rfl

theorem parseNumber_encodeInt (n : Int) (rest : List Char)
    (hrest : startsDigit rest = false) :
    parseNumber (encodeInt n ++ rest) = some (n, rest) ∧
      startsNumber (encodeInt n ++ rest) = true := by
  by_cases hn : n < 0
  · obtain ⟨c, cs, henc, hdig, hparse⟩ := encodeNat_spec n.natAbs rest hrest
    rw [encodeInt, if_pos hn, henc]
    refine ⟨?_, by simp [startsNumber]⟩
    simp only [List.cons_append, parseNumber, if_true]
    rw [if_pos hdig, hparse]
    have : -(n.natAbs : Int) = n := by omega
    rw [this]
  · obtain ⟨c, cs, henc, hdig, hparse⟩ := encodeNat_spec n.toNat rest hrest
    rw [encodeInt, if_neg hn, henc]
    constructor
    · simp only [List.cons_append, parseNumber]
      rw [if_neg (isDigit_ne_minus hdig), if_pos hdig, hparse]
      have : (n.toNat : Int) = n := by omega
      rw [this]
    · simp [startsNumber, hdig]

mutual

/-- Fuel sufficient for `parseVal` to read one encoded value. -/
def jsonFuel : Json → Nat
  | .arr xs => elemsFuel xs + 1
  | .obj kvs => membersFuel kvs + 1
  | _ => 1

/-- Fuel sufficient for `parseElems` to read an encoded element list. -/
def elemsFuel : List Json → Nat
  | [] => 1
  | x :: xs => max (jsonFuel x) (elemsFuel xs) + 1

/-- Fuel sufficient for `parseMembers` to read an encoded member list. -/
def membersFuel : List (String × Json) → Nat
  | [] => 1
  | (_, v) :: kvs => max (jsonFuel v) (membersFuel kvs) + 1

end

theorem jsonFuel_pos (j : Json) : 1 ≤ jsonFuel j := by
  cases j <;> simp [jsonFuel]

theorem elemsFuel_pos (xs : List Json) : 1 ≤ elemsFuel xs := by
  cases xs <;> simp [elemsFuel]

theorem membersFuel_pos (kvs : List (String × Json)) : 1 ≤ membersFuel kvs := by
  cases kvs with
  | nil => simp [membersFuel]
  | cons kv kvs => obtain ⟨k, v⟩ := kv; simp [membersFuel]

theorem encodeNat_cons (n : Nat) :
    ∃ c cs, encodeNat n = c :: cs ∧ c.isDigit = true := by
  obtain ⟨c, cs, henc, hdig, -⟩ := encodeNat_spec n [] rfl
  exact ⟨c, cs, henc, hdig⟩

theorem String_mk_data (s : String) : String.mk s.data = s := by
  cases s; rfl

theorem encodeJson_cons (j : Json) :
    ∃ c cs, encodeJson j = c :: cs ∧ c ≠ ']' := by
  cases j with
  | null => exact ⟨'n', _, rfl, by decide⟩
  | bool b => cases b with
    | true => exact ⟨'t', _, rfl, by decide⟩
    | false => exact ⟨'f', _, rfl, by decide⟩
  | num n =>
    by_cases hn : n < 0
    · refine ⟨'-', encodeNat n.natAbs, ?_, by decide⟩
      simp [encodeJson, encodeInt, hn]
    · obtain ⟨c, cs, henc, hdig⟩ := encodeNat_cons n.toNat
      refine ⟨c, cs, ?_, isDigit_ne_rbracket hdig⟩
      simp [encodeJson, encodeInt, hn, henc]
  | str s => exact ⟨'"', _, rfl, by decide⟩
  | arr xs => exact ⟨'[', _, rfl, by decide⟩
  | obj kvs => exact ⟨'\x7b', _, rfl, by decide⟩

theorem pv_null (f : Nat) (rest : List Char) :
    parseVal (f + 1) ('n' :: 'u' :: 'l' :: 'l' :: rest) = some (Json.null, rest) := rfl

theorem pv_true (f : Nat) (rest : List Char) :
    parseVal (f + 1) ('t' :: 'r' :: 'u' :: 'e' :: rest) =
      some (Json.bool true, rest) := rfl

theorem pv_false (f : Nat) (rest : List Char) :
    parseVal (f + 1) ('f' :: 'a' :: 'l' :: 's' :: 'e' :: rest) =
      some (Json.bool false, rest) := rfl

theorem pv_str (f : Nat) (rest : List Char) :
    parseVal (f + 1) ('"' :: rest) =
      (parseStringBody rest).map (fun p => (Json.str (String.mk p.1), p.2)) := rfl

theorem pv_arr_empty (f : Nat) (rest : List Char) :
    parseVal (f + 1) ('[' :: ']' :: rest) = some (Json.arr [], rest) := rfl

theorem pv_obj_empty (f : Nat) (rest : List Char) :
    parseVal (f + 1) ('\x7b' :: '\x7d' :: rest) = some (Json.obj [], rest) := rfl

theorem pv_obj (f : Nat) (rest : List Char) :
    parseVal (f + 1) ('\x7b' :: '"' :: rest) =
      (parseMembers f ('"' :: rest)).map (fun p => (Json.obj p.1, p.2)) := rfl

theorem pv_num (f : Nat) (cs : List Char) (h : startsNumber cs = true) :
    parseVal (f + 1) cs = (parseNumber cs).map (fun p => (Json.num p.1, p.2)) := by
  rw [parseVal]
  · rw [if_pos h]
  all_goals
    intro r heq
    subst heq
    rw [startsNumber] at h
    revert h
    decide

theorem pv_arr (f : Nat) (c : Char) (hc : c ≠ ']') (rest : List Char) :
    parseVal (f + 1) ('[' :: c :: rest) =
      (parseElems f (c :: rest)).map (fun p => (Json.arr p.1, p.2)) := by
  rw [parseVal]
  · rw [show startsNumber ('[' :: c :: rest) = false from rfl]
    simp
  · intro r heq
    exact hc (List.cons.injEq .. ▸ heq).1

theorem startsDigit_cons (c : Char) (t : List Char) :
    startsDigit (c :: t) = c.isDigit := rfl

theorem startsDigit_comma (t : List Char) : startsDigit (',' :: t) = false := by
  rw [startsDigit_cons]; decide

theorem startsDigit_rbracket (t : List Char) : startsDigit (']' :: t) = false := by
  rw [startsDigit_cons]; decide

theorem startsDigit_rbrace (t : List Char) : startsDigit ('\x7d' :: t) = false := by
  rw [startsDigit_cons]; decide

mutual

theorem parseVal_encode (j : Json) (fuel : Nat) (rest : List Char)
    (hf : jsonFuel j ≤ fuel) (hrest : startsDigit rest = false) :
    parseVal fuel (encodeJson j ++ rest) = some (j, rest) := by
  obtain ⟨f, rfl⟩ : ∃ f, fuel = f + 1 :=
    ⟨fuel - 1, by have := jsonFuel_pos j; omega⟩
  cases j with
  | null => exact pv_null f rest
  | bool b => cases b with
    | true => exact pv_true f rest
    | false => exact pv_false f rest
  | num n =>
    obtain ⟨hp, hs⟩ := parseNumber_encodeInt n rest hrest
    rw [show encodeJson (.num n) = encodeInt n from rfl]
    rw [pv_num f _ hs, hp]
    rfl
  | str s =>
    have hshape : encodeJson (.str s) ++ rest =
        '"' :: (s.data.flatMap escapeChar ++ '"' :: rest) := by
      simp [encodeJson, encodeStringChars]
    rw [hshape, pv_str, parseStringBody_escaped]
    simp [String_mk_data]
  | arr xs =>
    cases xs with
    | nil => exact pv_arr_empty f rest
    | cons x xs =>
      obtain ⟨c, cs0, hxeq, hcne⟩ := encodeJson_cons x
      have helems : ∃ t, encodeElems (x :: xs) = c :: t := by
        cases xs with
        | nil => exact ⟨cs0, by simp [encodeElems, hxeq]⟩
        | cons y ys => exact ⟨cs0 ++ ',' :: encodeElems (y :: ys), by simp [encodeElems, hxeq]⟩
      obtain ⟨t, ht⟩ := helems
      have hshape : encodeJson (.arr (x :: xs)) ++ rest =
          '[' :: c :: (t ++ ']' :: rest) := by
        simp [encodeJson, ht]
      rw [hshape, pv_arr f c hcne]
      have hback : c :: (t ++ ']' :: rest) = encodeElems (x :: xs) ++ ']' :: rest := by
        simp [ht]
      rw [hback]
      have hfe : elemsFuel (x :: xs) ≤ f := by
        simp only [jsonFuel] at hf; omega
      rw [parseElems_encode (x :: xs) f rest (by simp) hfe]
      rfl
  | obj kvs =>
    cases kvs with
    | nil => exact pv_obj_empty f rest
    | cons kv kvs =>
      obtain ⟨k, v⟩ := kv
      have hmem : ∃ t, encodeMembers ((k, v) :: kvs) = '"' :: t := by
        cases kvs with
        | nil =>
          exact ⟨k.data.flatMap escapeChar ++ '"' :: ':' :: encodeJson v,
            by simp [encodeMembers, encodeStringChars]⟩
        | cons m ms =>
          exact ⟨k.data.flatMap escapeChar ++
              '"' :: ':' :: (encodeJson v ++ ',' :: encodeMembers (m :: ms)),
            by simp [encodeMembers, encodeStringChars]⟩
      obtain ⟨t, ht⟩ := hmem
      have hshape : encodeJson (.obj ((k, v) :: kvs)) ++ rest =
          '\x7b' :: '"' :: (t ++ '\x7d' :: rest) := by
        simp [encodeJson, ht]
      rw [hshape, pv_obj]
      have hback : '"' :: (t ++ '\x7d' :: rest) =
          encodeMembers ((k, v) :: kvs) ++ '\x7d' :: rest := by
        simp [ht]
      rw [hback]
      have hfm : membersFuel ((k, v) :: kvs) ≤ f := by
        simp only [jsonFuel] at hf; omega
      rw [parseMembers_encode ((k, v) :: kvs) f rest (by simp) hfm]
      rfl

theorem parseElems_encode (xs : List Json) (fuel : Nat) (rest : List Char)
    (hxs : xs ≠ []) (hf : elemsFuel xs ≤ fuel) :
    parseElems fuel (encodeElems xs ++ ']' :: rest) = some (xs, rest) := by
  obtain ⟨f, rfl⟩ : ∃ f, fuel = f + 1 :=
    ⟨fuel - 1, by have := elemsFuel_pos xs; omega⟩
  match xs, hxs with
  | [x], _ =>
    have hfx : jsonFuel x ≤ f := by
      simp only [elemsFuel] at hf; omega
    rw [show encodeElems [x] = encodeJson x from rfl]
    rw [parseElems, parseVal_encode x f (']' :: rest) hfx (startsDigit_rbracket rest)]
    simp
  | x :: y :: ys, _ =>
    have hfx : jsonFuel x ≤ f := by
      simp only [elemsFuel] at hf; omega
    have hfr : elemsFuel (y :: ys) ≤ f := by
      simp only [elemsFuel] at hf ⊢; omega
    have hshape : encodeElems (x :: y :: ys) ++ ']' :: rest =
        encodeJson x ++ (',' :: (encodeElems (y :: ys) ++ ']' :: rest)) := by
      simp [encodeElems]
    rw [hshape, parseElems,
      parseVal_encode x f (',' :: (encodeElems (y :: ys) ++ ']' :: rest)) hfx
        (startsDigit_comma _)]
    simp [parseElems_encode (y :: ys) f rest (by simp) hfr]

theorem parseMembers_encode (kvs : List (String × Json)) (fuel : Nat)
    (rest : List Char) (hkvs : kvs ≠ []) (hf : membersFuel kvs ≤ fuel) :
    parseMembers fuel (encodeMembers kvs ++ '\x7d' :: rest) = some (kvs, rest) := by
  obtain ⟨f, rfl⟩ : ∃ f, fuel = f + 1 :=
    ⟨fuel - 1, by have := membersFuel_pos kvs; omega⟩
  match kvs, hkvs with
  | [(k, v)], _ =>
    have hfv : jsonFuel v ≤ f := by
      simp only [membersFuel] at hf; omega
    have hshape : encodeMembers [(k, v)] ++ '\x7d' :: rest =
        '"' :: (k.data.flatMap escapeChar ++
          '"' :: (':' :: (encodeJson v ++ '\x7d' :: rest))) := by
      simp [encodeMembers, encodeStringChars]
    rw [hshape, parseMembers, parseStringBody_escaped]
    simp [parseVal_encode v f ('\x7d' :: rest) hfv (startsDigit_rbrace rest),
      String_mk_data]
  | (k, v) :: m :: ms, _ =>
    have hfv : jsonFuel v ≤ f := by
      simp only [membersFuel] at hf; omega
    have hfr : membersFuel (m :: ms) ≤ f := by
      simp only [membersFuel] at hf ⊢; omega
    have hshape : encodeMembers ((k, v) :: m :: ms) ++ '\x7d' :: rest =
        '"' :: (k.data.flatMap escapeChar ++
          '"' :: (':' :: (encodeJson v ++
            ',' :: (encodeMembers (m :: ms) ++ '\x7d' :: rest)))) := by
      simp [encodeMembers, encodeStringChars]
    rw [hshape, parseMembers, parseStringBody_escaped]
    simp [parseVal_encode v f
        (',' :: (encodeMembers (m :: ms) ++ '\x7d' :: rest)) hfv (startsDigit_comma _),
      parseMembers_encode (m :: ms) f rest (by simp) hfr, String_mk_data]

end

mutual

theorem jsonFuel_le_encode (j : Json) : jsonFuel j ≤ (encodeJson j).length := by
  cases j with
  | null => simp [jsonFuel, encodeJson]
  | bool b => cases b <;> simp [jsonFuel, encodeJson]
  | num n =>
    obtain ⟨c, cs, heq, -⟩ := encodeJson_cons (.num n)
    simp [jsonFuel, heq]
  | str s =>
    obtain ⟨c, cs, heq, -⟩ := encodeJson_cons (.str s)
    simp [jsonFuel, heq]
  | arr xs =>
    have h := elemsFuel_le_encode xs
    simp only [jsonFuel, encodeJson, List.length_cons, List.length_append,
      List.length_singleton]
    omega
  | obj kvs =>
    have h := membersFuel_le_encode kvs
    simp only [jsonFuel, encodeJson, List.length_cons, List.length_append,
      List.length_singleton]
    omega

theorem elemsFuel_le_encode (xs : List Json) :
    elemsFuel xs ≤ (encodeElems xs).length + 1 := by
  match xs with
  | [] => simp [elemsFuel, encodeElems]
  | [x] =>
    have h1 := jsonFuel_le_encode x
    obtain ⟨c, cs, heq, -⟩ := encodeJson_cons x
    have h2 : 1 ≤ (encodeJson x).length := by rw [heq]; simp
    simp only [elemsFuel, encodeElems]
    omega
  | x :: y :: ys =>
    have h1 := jsonFuel_le_encode x
    have h2 := elemsFuel_le_encode (y :: ys)
    simp only [elemsFuel, encodeElems, List.length_append, List.length_cons]
    simp only [elemsFuel] at h2
    omega

theorem membersFuel_le_encode (kvs : List (String × Json)) :
    membersFuel kvs ≤ (encodeMembers kvs).length + 1 := by
  match kvs with
  | [] => simp [membersFuel, encodeMembers]
  | [(k, v)] =>
    have h1 := jsonFuel_le_encode v
    simp only [membersFuel, encodeMembers, List.length_append, List.length_cons]
    omega
  | (k, v) :: m :: ms =>
    have h1 := jsonFuel_le_encode v
    have h2 := membersFuel_le_encode (m :: ms)
    simp only [membersFuel, encodeMembers, List.length_append, List.length_cons]
    simp only [membersFuel] at h2
    omega

end

/-- Serialise-then-read is the identity: the reference reader recovers
exactly the value the encoder wrote. -/
theorem decode_encStr (j : Json) : decode (encStr j) = some j := by
  have hdata : (encStr j).data = encodeJson j := rfl
  have hlen : (encStr j).length = (encodeJson j).length := rfl
  rw [decode, hdata, hlen]
  have h := parseVal_encode j ((encodeJson j).length + 1) []
    (le_trans (jsonFuel_le_encode j) (by omega)) rfl
  rw [List.append_nil] at h
  rw [h]

/-! ## Request executor and outcome classification (`XHSClient.request`)

`request` models lines 73-101 of `client.py`: an empty body and a body that
fails JSON decoding return the raw response; a decoded envelope is
classified on its `success` and `code` fields.  `data["success"]` and
`data["code"]` are Python subscripts that raise a lookup error (`KeyError`,
or `TypeError` on a non-dict) when the key is absent; this failure mode is
`ReqError.lookupError`, distinct from the two deliberate exceptions. -/

/-- Constant `self.IP_ERROR_CODE = 300012`. -/
def IP_ERROR_CODE : Int := 300012

/-- Constant `self.IP_ERROR_STR`. -/
def IP_ERROR_STR : String := "网络连接异常，请检查网络设置或重启试试"

/-- The values `request` can return: the extracted payload on success, or
the raw HTTP response when the body is empty or not JSON. -/
inductive Outcome where
  | success (payload : Json) : Outcome
  | rawHTTP (body : String) : Outcome

/-- The exceptions `request` can raise: `IPBlockError`, `DataFetchError`,
or an unhandled key/type lookup error from `data["success"]`/`data["code"]`. -/
inductive ReqError where
  | ipBlocked (msg : String) : ReqError
  | dataFetch (msg : Json) : ReqError
  | lookupError (key : String) : ReqError

/-- Line 98: `data["code"] == self.IP_ERROR_CODE` and the two exception
raises.  Python `==` between a non-number and the integer sentinel is
false, so any non-numeric `code` falls through to `DataFetchError`. -/
def classifyCode (data c : Json) : Except ReqError Outcome :=
  match c with
  | .num m =>
    if m = IP_ERROR_CODE then .error (.ipBlocked IP_ERROR_STR)
    else .error (.dataFetch (jsonLookupD data "msg" Json.null))
  | _ => .error (.dataFetch (jsonLookupD data "msg" Json.null))

/-- Lines 96-101 once `data["success"]` has produced a value `s`. -/
def classifySuccess (data s : Json) : Except ReqError Outcome :=
  if jsonTruthy s then
    .ok (.success (jsonLookupD data "data" (jsonLookupD data "success" (Json.obj []))))
  else
    match jsonLookup data "code" with
    | none => .error (.lookupError "code")
    | some c => classifyCode data c

/-- Lines 96-101: classification of a decoded JSON envelope. -/
def classifyEnvelope (data : Json) : Except ReqError Outcome :=
  match jsonLookup data "success" with
  | none => .error (.lookupError "success")
  | some s => classifySuccess data s

/-- Lines 89-101: response-body handling of `request`, parameterised by the
response text. -/
def request (text : String) : Except ReqError Outcome :=
  if text.length = 0 then .ok (.rawHTTP text)
  else
    match decode text with
    | none => .ok (.rawHTTP text)
    | some data => classifyEnvelope data

/-! ## Liveness probe (`XHSClient.pong`, lines 135-151)

The probe body (`get_note_by_keyword` and the `items` check) runs inside
one `try`; any exception it raises is the `.error` case. -/

/-- Probe `pong`: false on any probe exception, true exactly when the probe's
result has a truthy `items` field. -/
def pong (probe : Except String Json) : Bool :=
  match probe with
  | .error _ => false
  | .ok note_card => jsonTruthy (jsonLookupD note_card "items" Json.null)

/-! ## Comment pagination (`XHSClient.get_note_all_comments`, lines 255-283)

One fetched page, as consumed by the loop: `res.get("has_more", False)`,
`res.get("cursor", "")` and the optional `comments` list. -/

structure CommentPage (α : Type) where
  has_more : Option Bool
  cursor : Option String
  comments : Option (List α)

/-- Observable outcome of one crawl: aggregated comments, the argument of
each callback invocation in order, and the number of `asyncio.sleep`s. -/
structure CrawlOutcome (α : Type) where
  result : List α
  sinkCalls : List (List α)
  sleeps : Nat

/-- The `while comments_has_more` loop, consuming a scripted page sequence;
`none` when the script is exhausted while the loop would fetch again. -/
def get_note_all_comments_go {α : Type} :
    List (CommentPage α) → List α → List (List α) → Nat → Option (CrawlOutcome α)
  | [], _, _, _ => none
  | p :: rest, acc, sinks, sleeps =>
    match p.comments with
    | none => some ⟨acc, sinks, sleeps⟩
    | some cs =>
      if p.has_more.getD false then
        get_note_all_comments_go rest (acc ++ cs) (sinks ++ [cs]) (sleeps + 1)
      else some ⟨acc ++ cs, sinks ++ [cs], sleeps + 1⟩

/-- Crawl `get_note_all_comments` over a scripted sequence of pages. -/
def get_note_all_comments {α : Type} (pages : List (CommentPage α)) :
    Option (CrawlOutcome α) :=
  get_note_all_comments_go pages [] [] 0

/-! ## Upload pipeline (`upload_file`, `create_image_note`, lines 306-413) -/

/-- One HTTP call issued by the pipeline; `signed` records whether the call
goes through `_pre_headers` signing (`get`/`post`) or not (the raw PUT). -/
structure HttpCall where
  method : String
  url : String
  headers : List (String × String)
  signed : Bool
deriving DecidableEq

/-- Constant `max_file_size = 5 * 1024 * 1024` (line 322). -/
def max_file_size : Nat := 5 * 1024 * 1024

/-- The unsigned binary PUT of `upload_file` (lines 328-331). -/
def uploadPut (file_id token content_type : String) : HttpCall :=
  { method := "PUT"
    url := "https://ros-upload.xiaohongshu.com/" ++ file_id
    headers := [("X-Cos-Security-Token", token), ("Content-Type", content_type)]
    signed := false }

/-- Transfer `upload_file` (lines 306-331): the size check runs before any network
call; `putResult` is the environment's outcome for the PUT when it is
attempted.  Returns the calls issued and the result. -/
def upload_file (file_id token : String) (size : Nat) (content_type : String)
    (putResult : Except String Unit) : List HttpCall × Except String Unit :=
  if max_file_size < size ∧ content_type = "video/mp4" then
    ([], .error "video too large, < 5M")
  else
    ([uploadPut file_id token content_type], putResult)

/-- The signed permit GET of `get_upload_files_permit` (line 292). -/
def permitCall : HttpCall :=
  { method := "GET", url := "/api/media/v1/upload/web/permit",
    headers := [], signed := true }

/-- The signed publish POST of `create_note` (line 342). -/
def publishCall : HttpCall :=
  { method := "POST", url := "/web_api/sns/v2/note",
    headers := [], signed := true }

/-- The image descriptor appended per file (lines 403-410). -/
def image_descriptor (file_id : String) : Json :=
  Json.obj [("file_id", .str file_id),
    ("metadata", .obj [("source", .num (-1))]),
    ("stickers", .obj [("version", .num 2), ("floating", .arr [])]),
    ("extra_info_json", .str "\x7b\"mimeType\":\"image/jpeg\"\x7d")]

/-- The per-file loop of `create_image_note` (lines 399-413): permit, then
transfer with content type `"image/jpeg"`, then either continue or abort.
`permits i` is the permit returned for file `i` (the modelled runs are
those in which each permit call succeeds); `transfer i` is the outcome of
file `i`'s PUT. -/
def create_image_note_go (permits : Nat → String × String)
    (transfer : Nat → Except String Unit) :
    List Nat → Nat → List HttpCall → List Json →
      List HttpCall × Except String (List Json)
  | [], _, trace, images => (trace ++ [publishCall], .ok images)
  | size :: rest, i, trace, images =>
    let fid := (permits i).1
    let tok := (permits i).2
    let put := upload_file fid tok size "image/jpeg" (transfer i)
    match put.2 with
    | .error e => (trace ++ [permitCall] ++ put.1, .error e)
    | .ok _ =>
      create_image_note_go permits transfer rest (i + 1)
        (trace ++ [permitCall] ++ put.1) (images ++ [image_descriptor fid])

/-- Composite `create_image_note` on files of the given sizes: the calls issued and
either the image descriptors handed to `create_note` (the final publish
call is in the trace) or the aborting error. -/
def create_image_note (permits : Nat → String × String)
    (transfer : Nat → Except String Unit) (sizes : List Nat) :
    List HttpCall × Except String (List Json) :=
  create_image_note_go permits transfer sizes 0 [] []

/-! ## Publish payload (`create_note`, lines 333-375)

`post_time` is modelled as the already-converted epoch-millisecond value
(line 341); `None` stays `null`. -/

/-- The `business_binds` dict (lines 343-353). -/
def business_binds (post_time : Option Int) : Json :=
  Json.obj [("version", .num 1),
    ("noteId", .num 0),
    ("noteOrderBind", .obj []),
    ("notePostTiming", .obj [("postTime",
      match post_time with | none => Json.null | some t => Json.num t)]),
    ("noteCollectionBind", .obj [("id", .str "")])]

/-- The value of the Python literal assigned to `"source"` (line 361). -/
def sourceLiteral : String :=
  "\x7b\"type\":\"web\",\"ids\":\"\",\"extraInfo\":\"\x7b\\\"subType\\\":\\\"official\\\"\x7d\"\x7d"

/-- The `data` dict built by `create_note` (lines 355-370): the outer
payload, with `business_binds` double-encoded as a JSON string via
`json.dumps(business_binds, separators=(",", ":"))`. -/
def create_note_data (title desc note_type : String) (ats topics : Json)
    (image_info video_info : Json) (post_time : Option Int)
    (is_private : Bool) : Json :=
  Json.obj [("common", Json.obj [
      ("type", .str note_type),
      ("title", .str title),
      ("note_id", .str ""),
      ("desc", .str desc),
      ("source", .str sourceLiteral),
      ("business_binds", .str (encStr (business_binds post_time))),
      ("ats", ats),
      ("hash_tag", topics),
      ("post_loc", .obj []),
      ("privacy_info", .obj [("op_type", .num 1),
        ("type", .num (if is_private then 1 else 0))])]),
    ("image_info", image_info),
    ("video_info", video_info)]

/-- The serialised POST body of `create_note` (line 131:
`json.dumps(data, separators=(",", ":"), ensure_ascii=False)`). -/
def create_note_body (title desc note_type : String) (ats topics : Json)
    (image_info video_info : Json) (post_time : Option Int)
    (is_private : Bool) : String :=
  encStr (create_note_data title desc note_type ats topics image_info
    video_info post_time is_private)

/-- Two-level JSON object access. -/
def jsonLookup2 (j : Json) (k1 k2 : String) : Option Json :=
  match jsonLookup j k1 with
  | some v => jsonLookup v k2
  | none => none

/-! ## Claim theorems -/

/-- Predicate: `request` resolves to one of the four spec outcomes: returned payload
(`Success`), returned raw response (`RawHTTP`), or one of the two
deliberate exceptions (`IPBlocked` / `PlatformError`, i.e. `DataFetchError`). -/
def classifiedOutcome (r : Except ReqError Outcome) : Prop :=
  (∃ v, r = .ok (.success v)) ∨ (∃ b, r = .ok (.rawHTTP b)) ∨
    (∃ m, r = .error (.ipBlocked m)) ∨ (∃ m, r = .error (.dataFetch m))

/-- The decoded envelope (when the body decodes at all) carries a `success`
key, and a `code` key whenever `success` is falsy: the domain on which the
subscripts `data["success"]` / `data["code"]` cannot raise. -/
def envelopeKeysOk (text : String) : Bool :=
  match decode text with
  | none => true
  | some env =>
    match jsonLookup env "success" with
    | none => false
    | some s => jsonTruthy s || (jsonLookup env "code").isSome

theorem decode_some_length_pos {text : String} {env : Json}
    (h : decode text = some env) : ¬text.length = 0 := by
  intro hlen
  have hdata : text.data = [] := List.length_eq_zero.mp hlen
  rw [decode, hlen, hdata] at h
  rw [show parseVal (0 + 1) [] = none from rfl] at h
  exact Option.noConfusion h

/-- C1 (counterexample): the body `"{}"` is non-empty valid JSON, yet
`request` raises a `KeyError` on `data["success"]` — an outcome outside the
four variants, so classification can fail in another way. -/
theorem request_missing_success_key_raises :
    decode "\x7b\x7d" = some (Json.obj []) ∧
      request "\x7b\x7d" = Except.error (ReqError.lookupError "success") :=
  ⟨rfl, rfl⟩

/-- C1 (amended): for every response body, if the body is empty or not
JSON the raw response is returned; otherwise the decoded envelope is
classified into exactly one of the four outcome variants on its `success`
and `code` fields, provided the envelope has a `success` key and, when
`success` is falsy, a `code` key.  (Without those keys the subscript
raises a lookup error, per the counterexample.) -/
theorem request_classifies_with_keys (text : String)
    (h : envelopeKeysOk text = true) : classifiedOutcome (request text) := by
  rw [request]
  by_cases hlen : text.length = 0
  · rw [if_pos hlen]
    exact Or.inr (Or.inl ⟨text, rfl⟩)
  · rw [if_neg hlen]
    rw [envelopeKeysOk] at h
    match hdec : decode text with
    | none =>
      exact Or.inr (Or.inl ⟨text, rfl⟩)
    | some env =>
      rw [hdec] at h
      replace h : (match jsonLookup env "success" with
        | none => false
        | some s => jsonTruthy s || (jsonLookup env "code").isSome) = true := h
      show classifiedOutcome (classifyEnvelope env)
      rw [classifyEnvelope]
      match hs : jsonLookup env "success" with
      | none =>
        rw [hs] at h
        exact Bool.noConfusion h
      | some s =>
        rw [hs] at h
        show classifiedOutcome (classifySuccess env s)
        replace h : (jsonTruthy s || (jsonLookup env "code").isSome) = true := h
        rw [classifySuccess]
        by_cases ht : jsonTruthy s = true
        · rw [if_pos ht]
          exact Or.inl ⟨_, rfl⟩
        · rw [if_neg ht]
          have hcode : (jsonLookup env "code").isSome = true := by
            rcases Bool.or_eq_true_iff.mp h with h' | h'
            · exact absurd h' ht
            · exact h'
          obtain ⟨c, hc⟩ := Option.isSome_iff_exists.mp hcode
          rw [hc]
          show classifiedOutcome (classifyCode env c)
          match c with
          | .num m =>
            rw [classifyCode]
            by_cases hm : m = IP_ERROR_CODE
            · rw [if_pos hm]
              exact Or.inr (Or.inr (Or.inl ⟨_, rfl⟩))
            · rw [if_neg hm]
              exact Or.inr (Or.inr (Or.inr ⟨_, rfl⟩))
          | .null | .bool _ | .str _ | .arr _ | .obj _ =>
            exact Or.inr (Or.inr (Or.inr ⟨_, rfl⟩))

/-- Witness for the amended C1 at a concrete successful envelope. -/
theorem request_classifies_with_keys_witness :
    envelopeKeysOk "\x7b\"success\":true\x7d" = true ∧
      classifiedOutcome (request "\x7b\"success\":true\x7d") :=
  ⟨rfl, request_classifies_with_keys _ rfl⟩

/-- C2: every envelope whose `success` field is `true` classifies as
`Success`, carrying the `data` field when present and the `success` flag
itself when `data` is absent; it is never a raised error. -/
theorem request_success_envelope (text : String) (env : Json)
    (hdec : decode text = some env)
    (hs : jsonLookup env "success" = some (Json.bool true)) :
    (∀ v, jsonLookup env "data" = some v →
      request text = .ok (.success v)) ∧
    (jsonLookup env "data" = none →
      request text = .ok (.success (Json.bool true))) ∧
    (∃ payload, request text = .ok (.success payload)) := by
  have hreq : request text = classifyEnvelope env := by
    rw [request, if_neg (decode_some_length_pos hdec), hdec]
  have hsd : jsonLookupD env "success" (Json.obj []) = Json.bool true := by
    rw [jsonLookupD, hs]; rfl
  have hclass : classifyEnvelope env =
      .ok (.success (jsonLookupD env "data" (Json.bool true))) := by
    rw [classifyEnvelope, hs]
    show classifySuccess env (Json.bool true) = _
    rw [classifySuccess, if_pos (by rfl), hsd]
  rw [hreq, hclass]
  refine ⟨?_, ?_, ⟨_, rfl⟩⟩
  · intro v hv
    rw [jsonLookupD, hv]
    rfl
  · intro hnone
    rw [jsonLookupD, hnone]
    rfl

/-- Concrete envelope for the C2 witness. -/
def c2env : Json := Json.obj [("success", .bool true), ("data", .num 7)]

/-- Witness for C2: a concrete `success=true` envelope with a `data` field. -/
theorem request_success_envelope_witness :
    request (encStr c2env) = .ok (.success (.num 7)) :=
  (request_success_envelope (encStr c2env) c2env (decode_encStr c2env) rfl).1
    (.num 7) rfl

/-- C3: on the scripted two-page sequence the crawl aggregates `[a, b, c]`,
invokes the sink exactly twice with `[a, b]` then `[c]`, and sleeps exactly
twice. -/
theorem crawl_two_pages {α : Type} (a b c : α) :
    get_note_all_comments
        [⟨some true, some "", some [a, b]⟩, ⟨some false, some "x", some [c]⟩] =
      some ⟨[a, b, c], [[a, b], [c]], 2⟩ := rfl

/-- C4 (counterexample): a first page with `has_more=false` and an empty
`comments` list has zero items, yet the sink is invoked once (with `[]`):
the crawl returns the empty sequence but the callback does run. -/
theorem crawl_empty_page_invokes_sink :
    get_note_all_comments [(⟨some false, some "", some []⟩ : CommentPage Nat)] =
      some ⟨[], [[]], 1⟩ := rfl

/-- C4 (amended): a zero-item first page with `hasMore=false` returns the
empty sequence; the sink is not invoked only when the `comments` key is
absent — when the key holds an empty list the sink is invoked once, with
that empty list. -/
theorem crawl_empty_first_page {α : Type} (p : CommentPage α)
    (hm : p.has_more.getD false = false) :
    (p.comments = none → get_note_all_comments [p] = some ⟨[], [], 0⟩) ∧
    (p.comments = some [] → get_note_all_comments [p] = some ⟨[], [[]], 1⟩) := by
  constructor <;> intro hc <;>
    simp [get_note_all_comments, get_note_all_comments_go, hc, hm]

/-- Witness for the amended C4 in both shapes of zero-item page. -/
theorem crawl_empty_first_page_witness :
    get_note_all_comments [(⟨some false, some "x", some []⟩ : CommentPage Nat)] =
        some ⟨[], [[]], 1⟩ ∧
      get_note_all_comments [(⟨some false, some "x", none⟩ : CommentPage Nat)] =
        some ⟨[], [], 0⟩ :=
  ⟨(crawl_empty_first_page (⟨some false, some "x", some []⟩ : CommentPage Nat)
      rfl).2 rfl,
   (crawl_empty_first_page (⟨some false, some "x", none⟩ : CommentPage Nat)
      rfl).1 rfl⟩

theorem crawl_go_prefix {α : Type} (ps : List (CommentPage α))
    (p : CommentPage α) (rest : List (CommentPage α))
    (hok : ∀ q ∈ ps, q.has_more.getD false = true ∧ q.comments.isSome)
    (hbad : p.comments = none) (acc : List α) (sinks : List (List α))
    (sleeps : Nat) :
    get_note_all_comments_go (ps ++ p :: rest) acc sinks sleeps =
      some ⟨acc ++ (ps.map (fun q => q.comments.getD [])).flatten,
            sinks ++ ps.map (fun q => q.comments.getD []),
            sleeps + ps.length⟩ := by
  induction ps generalizing acc sinks sleeps with
  | nil =>
    simp [get_note_all_comments_go, hbad]
  | cons q qs ih =>
    obtain ⟨hqm, hqc⟩ := hok q (by simp)
    obtain ⟨cs, hcs⟩ := Option.isSome_iff_exists.mp hqc
    simp only [List.cons_append, get_note_all_comments_go, hcs, hqm, if_true]
    simp only [List.append_eq]
    rw [ih (fun x hx => hok x (by simp [hx]))]
    simp [hcs, List.append_assoc]
    omega

/-- C5: when the pages before some page all continue (`has_more` truthy,
`comments` present) and that page lacks the `comments` key, the crawl
stops there — whatever the script holds afterwards — and returns exactly
the items accumulated from the earlier pages, without raising. -/
theorem crawl_stops_on_malformed_page {α : Type} (ps : List (CommentPage α))
    (p : CommentPage α) (rest : List (CommentPage α))
    (hok : ∀ q ∈ ps, q.has_more.getD false = true ∧ q.comments.isSome)
    (hbad : p.comments = none) :
    get_note_all_comments (ps ++ p :: rest) =
      some ⟨(ps.map (fun q => q.comments.getD [])).flatten,
            ps.map (fun q => q.comments.getD []), ps.length⟩ := by
  rw [get_note_all_comments, crawl_go_prefix ps p rest hok hbad]
  simp

/-- Witness for C5: one good page, then a page missing `comments`. -/
theorem crawl_stops_on_malformed_page_witness :
    get_note_all_comments
        [(⟨some true, some "", some [1, 2]⟩ : CommentPage Nat),
         ⟨some false, none, none⟩] =
      some ⟨[1, 2], [[1, 2]], 1⟩ :=
  crawl_stops_on_malformed_page
    [⟨some true, some "", some [1, 2]⟩] ⟨some false, none, none⟩ []
    (by intro q hq; simp at hq; subst hq; exact ⟨rfl, rfl⟩) rfl

/-- C6: a file strictly over 5 MiB with content type `"video/mp4"` fails
with the size-limit error before any network call is issued (empty call
trace — in particular neither a permit nor a transfer call); any file
within the limit is unaffected by the size check and its PUT proceeds. -/
theorem upload_size_precondition (file_id token : String) (size : Nat)
    (content_type : String) (putResult : Except String Unit) :
    (max_file_size < size ∧ content_type = "video/mp4" →
      upload_file file_id token size content_type putResult =
        ([], .error "video too large, < 5M")) ∧
    (size ≤ max_file_size →
      upload_file file_id token size content_type putResult =
        ([uploadPut file_id token content_type], putResult)) := by
  constructor
  · intro h
    rw [upload_file, if_pos h]
  · intro h
    rw [upload_file, if_neg (fun hh => absurd hh.1 (by omega))]

/-- Witness for C6: a 6 MiB video is rejected with no calls; a 3 MiB image
proceeds to its PUT. -/
theorem upload_size_precondition_witness :
    upload_file "fid" "tok" (6 * 1024 * 1024) "video/mp4" (.ok ()) =
        ([], .error "video too large, < 5M") ∧
      upload_file "fid" "tok" (3 * 1024 * 1024) "image/jpeg" (.ok ()) =
        ([uploadPut "fid" "tok" "image/jpeg"], .ok ()) :=
  ⟨(upload_size_precondition "fid" "tok" _ _ _).1
      ⟨by norm_num [max_file_size], rfl⟩,
   (upload_size_precondition "fid" "tok" _ _ _).2
      (by norm_num [max_file_size])⟩

/-- C7: with three files, when the first transfer succeeds and the second
fails, the composite stops right there: the trace is permit/PUT for file 0
and permit/PUT for file 1, the error propagates, the publish call is never
made, and no deletion call of any kind is issued for file 0's completed
upload. -/
theorem create_image_note_aborts_no_rollback (permits : Nat → String × String)
    (transfer : Nat → Except String Unit) (s1 s2 s3 : Nat) (e : String)
    (h0 : transfer 0 = .ok ()) (h1 : transfer 1 = .error e) :
    create_image_note permits transfer [s1, s2, s3] =
      ([permitCall, uploadPut (permits 0).1 (permits 0).2 "image/jpeg",
        permitCall, uploadPut (permits 1).1 (permits 1).2 "image/jpeg"],
       .error e) ∧
    publishCall ∉ (create_image_note permits transfer [s1, s2, s3]).1 ∧
    ∀ call ∈ (create_image_note permits transfer [s1, s2, s3]).1,
      call.method ≠ "DELETE" := by
  have htrace : create_image_note permits transfer [s1, s2, s3] =
      ([permitCall, uploadPut (permits 0).1 (permits 0).2 "image/jpeg",
        permitCall, uploadPut (permits 1).1 (permits 1).2 "image/jpeg"],
       .error e) := by
    rw [create_image_note, create_image_note_go]
    rw [show upload_file (permits 0).1 (permits 0).2 s1 "image/jpeg" (transfer 0) =
        ([uploadPut (permits 0).1 (permits 0).2 "image/jpeg"], transfer 0) from
      by rw [upload_file, if_neg (fun hh => by exact absurd hh.2 (by decide))]]
    rw [h0]
    rw [create_image_note_go]
    rw [show upload_file (permits 1).1 (permits 1).2 s2 "image/jpeg" (transfer 1) =
        ([uploadPut (permits 1).1 (permits 1).2 "image/jpeg"], transfer 1) from
      by rw [upload_file, if_neg (fun hh => by exact absurd hh.2 (by decide))]]
    rw [h1]
    rfl
  refine ⟨htrace, ?_, ?_⟩
  · rw [htrace]
    intro hmem
    simp only [List.mem_cons, List.not_mem_nil, or_false] at hmem
    rcases hmem with h' | h' | h' | h' <;>
      simp [publishCall, permitCall, uploadPut] at h'
  · rw [htrace]
    intro call hc
    simp only [List.mem_cons, List.not_mem_nil, or_false] at hc
    rcases hc with h' | h' | h' | h' <;> subst h' <;>
      simp [permitCall, uploadPut]

/-- Witness for C7 at a concrete permit oracle and failure pattern. -/
theorem create_image_note_aborts_no_rollback_witness :
    create_image_note (fun _ => ("f", "t"))
        (fun i => if i = 0 then .ok () else .error "boom") [1, 2, 3] =
      ([permitCall, uploadPut "f" "t" "image/jpeg",
        permitCall, uploadPut "f" "t" "image/jpeg"], .error "boom") :=
  (create_image_note_aborts_no_rollback (fun _ => ("f", "t"))
    (fun i => if i = 0 then .ok () else .error "boom") 1 2 3 "boom" rfl rfl).1

/-- C8: for every payload built by `create_note`, the serialised outer body
decodes back to the payload; the `business_binds` field under `common` is a
string, namely the serialisation of the `business_binds` structure; and
that string decodes to exactly the original `business_binds` structure —
the double encoding round-trips. -/
theorem create_note_double_encoding_roundtrip (title desc note_type : String)
    (ats topics image_info video_info : Json) (post_time : Option Int)
    (is_private : Bool) :
    decode (create_note_body title desc note_type ats topics image_info
        video_info post_time is_private) =
      some (create_note_data title desc note_type ats topics image_info
        video_info post_time is_private) ∧
    jsonLookup2 (create_note_data title desc note_type ats topics image_info
        video_info post_time is_private) "common" "business_binds" =
      some (.str (encStr (business_binds post_time))) ∧
    decode (encStr (business_binds post_time)) =
      some (business_binds post_time) :=
  ⟨decode_encStr _, rfl, decode_encStr _⟩

/-- C9: `pong` is a total Boolean — an erroring probe never propagates and
yields `false`; `pong` is `true` exactly when the probe returned a value
whose `items` field is truthy (a non-empty list). -/
theorem pong_swallows_failures (probe : Except String Json) :
    (∀ e, probe = .error e → pong probe = false) ∧
    (pong probe = true ↔
      ∃ d, probe = .ok d ∧
        jsonTruthy (jsonLookupD d "items" Json.null) = true) := by
  constructor
  · intro e he
    subst he
    rfl
  · cases probe with
    | error e => simp [pong]
    | ok d => simp [pong]

/-- Witness for C9: a raising probe reports a dead session; a probe with a
non-empty `items` list reports it alive. -/
theorem pong_swallows_failures_witness :
    pong (Except.error "boom") = false ∧
      pong (Except.ok (Json.obj [("items", Json.arr [Json.num 1])])) = true :=
  ⟨(pong_swallows_failures _).1 "boom" rfl,
   (pong_swallows_failures _).2.mpr ⟨_, rfl, rfl⟩⟩

/-- C10: the size check rejects exactly when the size strictly exceeds
5 MiB and the content type is exactly `"video/mp4"`; otherwise — including
a video of exactly 5 MiB and an arbitrarily large non-`video/mp4` file —
the transfer proceeds as the single unsigned PUT carrying the permit token
in the `X-Cos-Security-Token` header. -/
theorem upload_size_check_exact (file_id token : String) (size : Nat)
    (content_type : String) (putResult : Except String Unit) :
    (upload_file file_id token size content_type putResult =
        ([], .error "video too large, < 5M") ↔
      max_file_size < size ∧ content_type = "video/mp4") ∧
    (¬(max_file_size < size ∧ content_type = "video/mp4") →
      upload_file file_id token size content_type putResult =
        ([{ method := "PUT",
            url := "https://ros-upload.xiaohongshu.com/" ++ file_id,
            headers := [("X-Cos-Security-Token", token),
              ("Content-Type", content_type)],
            signed := false }], putResult)) := by
  by_cases h : max_file_size < size ∧ content_type = "video/mp4"
  · rw [upload_file, if_pos h]
    exact ⟨⟨fun _ => h, fun _ => rfl⟩, fun hn => absurd h hn⟩
  · rw [upload_file, if_neg h]
    refine ⟨⟨fun heq => ?_, fun hh => absurd hh h⟩, fun _ => rfl⟩
    simp [uploadPut] at heq

/-- Witness for C10: a 5 MiB video passes the check, as does a 9 MiB PNG. -/
theorem upload_size_check_exact_witness :
    upload_file "fid" "tok" (5 * 1024 * 1024) "video/mp4" (.ok ()) =
        ([{ method := "PUT",
            url := "https://ros-upload.xiaohongshu.com/" ++ "fid",
            headers := [("X-Cos-Security-Token", "tok"),
              ("Content-Type", "video/mp4")],
            signed := false }], .ok ()) ∧
      upload_file "fid" "tok" (9 * 1024 * 1024) "image/png" (.ok ()) =
        ([{ method := "PUT",
            url := "https://ros-upload.xiaohongshu.com/" ++ "fid",
            headers := [("X-Cos-Security-Token", "tok"),
              ("Content-Type", "image/png")],
            signed := false }], .ok ()) :=
  ⟨(upload_size_check_exact "fid" "tok" _ _ _).2
      (fun hh => absurd hh.1 (by norm_num [max_file_size])),
   (upload_size_check_exact "fid" "tok" _ _ _).2
      (fun hh => absurd hh.2 (by decide))⟩

end XHS
